import Mathlib

/-!
Shallow embedding of the gatherer assembler (src/main.rs, src/instruction.rs,
src/error.rs) and verification of its specification claims.

Rust strings are modelled as lists of characters; machine integers (u8, u16,
u32, i16, i32) are modelled as naturals (respectively integers) with explicit
reduction modulo 2^8 / 2^16 / 2^32 at exactly the points where the Rust types
truncate.  Fallible Rust functions returning Result are modelled with Except;
functions that can abort the process (an out-of-bounds index or a HashMap
index with a missing key) are modelled with an outcome type that has a
distinguished constructor for the panic.
-/

namespace Gatherer

/-- A Rust string slice, modelled as a list of characters. -/
abbrev Str := List Char

/-- The error enum from src/error.rs (the io::Error payload of the last
variant is irrelevant to the core and carries no data here). -/
inductive AssemblerError : Type where
  | OpcodeMissing (s : Str)
  | UnknownInstruction (s : Str)
  | InvalidNoOfArgs (expected found : Nat)
  | UnknownRegister (s : Str)
  | InvalidNumber (s : Str)
  | InvalidInstruction (s : Str)
  | FloatingLabel (s : Str)
  | IOError
deriving DecidableEq, Repr

/-- Outcome of running a piece of Rust code that either returns a value,
returns an error, or aborts the process with a panic. -/
inductive POutcome (α : Type) : Type where
  | panicked
  | err (e : AssemblerError)
  | ok (val : α)
deriving DecidableEq, Repr

/-- AbsLabel from src/instruction.rs: a label name with an optional
resolved u32 address. -/
structure AbsLabel : Type where
  name : Str
  addr : Option Nat
deriving DecidableEq, Repr

/-- RelLabel from src/instruction.rs: a label name with an optional
resolved u16 displacement. -/
structure RelLabel : Type where
  name : Str
  addr : Option Nat
deriving DecidableEq, Repr

/-- The Instruction enum from src/instruction.rs, with the fields in the
order they are declared in the Rust source. -/
inductive Instruction : Type where
  | Add (rs rt : Nat)
  | Comp (rs rt : Nat)
  | AddImm (rs imm : Nat)
  | CompImm (rs imm : Nat)
  | And (rs rt : Nat)
  | Xor (rs rt : Nat)
  | Sll (rs sh : Nat)
  | Srl (rs sh : Nat)
  | Sra (rs sh : Nat)
  | Sllv (rs rt : Nat)
  | Srlv (rs rt : Nat)
  | Srav (rs rt : Nat)
  | Lw (rt imm rs : Nat)
  | Sw (rt imm rs : Nat)
  | B (label : AbsLabel)
  | Bl (label : AbsLabel)
  | Br (rs : Nat)
  | Bcy (label : RelLabel)
  | Bncy (label : RelLabel)
  | Bltz (rs : Nat) (label : RelLabel)
  | Bz (rs : Nat) (label : RelLabel)
  | Bnz (rs : Nat) (label : RelLabel)
deriving DecidableEq, Repr

namespace Instruction

/-- Instruction::opcode from src/instruction.rs. -/
def opcode : Instruction → Nat
  | .Add .. => 0
  | .Comp .. => 1
  | .AddImm .. => 2
  | .CompImm .. => 3
  | .And .. => 4
  | .Xor .. => 5
  | .Sll .. => 6
  | .Srl .. => 7
  | .Sra .. => 10
  | .Sllv .. => 8
  | .Srlv .. => 9
  | .Srav .. => 11
  | .Lw .. => 12
  | .Sw .. => 13
  | .B .. => 14
  | .Bl .. => 19
  | .Br .. => 15
  | .Bcy .. => 20
  | .Bncy .. => 21
  | .Bltz .. => 16
  | .Bz .. => 17
  | .Bnz .. => 18

end Instruction

/-- encode_itype from src/instruction.rs: opcode, rs, rt are u8 and imm is
u16 widened to u32; each value is shifted into place and or-ed into the word.
The u8 arguments contribute their value modulo 2^8 and the shifted opcode is
truncated to u32 exactly as the Rust shift on u32 does. -/
def encodeItype (opcode rs rt imm : Nat) : Nat :=
  (((opcode % 256) * 67108864) % 4294967296) |||
    ((rs % 256) * 2097152) ||| ((rt % 256) * 65536) ||| (imm % 65536)

/-- encode_jtype from src/instruction.rs: the opcode is shifted to the top
six bits and the u32 address is or-ed in. -/
def encodeJtype (opcode addr : Nat) : Nat :=
  (((opcode % 256) * 67108864) % 4294967296) ||| (addr % 4294967296)

namespace Instruction

/-- Instruction::encode from src/instruction.rs: the opcode is computed
first, then one grouped match arm per binary format produces the word.
Encoding an instruction that still carries an unresolved label fails with
FloatingLabel naming the label. -/
def encode (i : Instruction) : Except AssemblerError Nat :=
  let op := i.opcode
  match i with
  | .Add rs rt | .Comp rs rt | .And rs rt | .Xor rs rt
  | .Sllv rs rt | .Srlv rs rt | .Srav rs rt => .ok (encodeItype op rs rt 0)
  | .AddImm rs imm | .CompImm rs imm => .ok (encodeItype op rs 0 imm)
  | .Sll rs sh | .Srl rs sh | .Sra rs sh => .ok (encodeItype op rs sh 0)
  | .Lw rt imm rs | .Sw rt imm rs => .ok (encodeItype op rs rt imm)
  | .B label | .Bl label =>
      match label.addr with
      | some addr => .ok (encodeJtype op addr)
      | none => .error (.FloatingLabel label.name)
  | .Bcy label | .Bncy label =>
      match label.addr with
      | some addr => .ok (encodeItype op 0 0 addr)
      | none => .error (.FloatingLabel label.name)
  | .Br rs => .ok (encodeItype op rs 0 0)
  | .Bltz rs label | .Bz rs label | .Bnz rs label =>
      match label.addr with
      | some addr => .ok (encodeItype op rs 0 addr)
      | none => .error (.FloatingLabel label.name)

/-- Instruction::has_abs_label from src/instruction.rs. -/
def hasAbsLabel : Instruction → Bool
  | .B .. | .Bl .. => true
  | _ => false

/-- Instruction::has_rel_label from src/instruction.rs. -/
def hasRelLabel : Instruction → Bool
  | .Bcy .. | .Bncy .. | .Bltz .. | .Bz .. | .Bnz .. => true
  | _ => false

/-- Instruction::set_abs_addr from src/instruction.rs.  The address
parameter is a u32, so the stored value is reduced modulo 2^32; on a
variant without an absolute label the Rust code only prints a warning and
leaves the instruction unchanged. -/
def setAbsAddr (i : Instruction) (addr : Nat) : Instruction :=
  match i with
  | .B label => .B ⟨label.name, some (addr % 4294967296)⟩
  | .Bl label => .Bl ⟨label.name, some (addr % 4294967296)⟩
  | _ => i

/-- Instruction::set_rel_addr from src/instruction.rs.  The displacement
parameter is a u16, so the stored value is reduced modulo 2^16; on a
variant without a relative label the Rust code only prints a warning and
leaves the instruction unchanged. -/
def setRelAddr (i : Instruction) (addr : Nat) : Instruction :=
  match i with
  | .Bcy label => .Bcy ⟨label.name, some (addr % 65536)⟩
  | .Bncy label => .Bncy ⟨label.name, some (addr % 65536)⟩
  | .Bltz rs label => .Bltz rs ⟨label.name, some (addr % 65536)⟩
  | .Bz rs label => .Bz rs ⟨label.name, some (addr % 65536)⟩
  | .Bnz rs label => .Bnz rs ⟨label.name, some (addr % 65536)⟩
  | _ => i

/-- Instruction::get_label_name from src/instruction.rs.  On a variant
without a label the Rust code is unreachable (it panics); the value
returned there is never used, so it is modelled by the empty name. -/
def getLabelName : Instruction → Str
  | .Bcy label | .Bncy label => label.name
  | .Bltz _ label | .Bz _ label | .Bnz _ label => label.name
  | .B label | .Bl label => label.name
  | _ => []

/-- Whether the label carried by the instruction has no address yet (the
condition Instruction::encode checks before failing with FloatingLabel). -/
def labelUnresolved : Instruction → Bool
  | .B label | .Bl label => label.addr.isNone
  | .Bcy label | .Bncy label => label.addr.isNone
  | .Bltz _ label | .Bz _ label | .Bnz _ label => label.addr.isNone
  | _ => false

end Instruction

/-- Propositional equality on Except values is decidable when it is on the
payloads; needed to evaluate concrete runs of the fallible functions. -/
instance {α β : Type} [DecidableEq α] [DecidableEq β] :
    DecidableEq (Except α β) := fun a b =>
  match a, b with
  | .error x, .error y =>
      if h : x = y then .isTrue (by rw [h]) else .isFalse (by simp [h])
  | .ok x, .ok y =>
      if h : x = y then .isTrue (by rw [h]) else .isFalse (by simp [h])
  | .error _, .ok _ => .isFalse (by simp)
  | .ok _, .error _ => .isFalse (by simp)

/-- Whitespace as used by str::trim (the characters that can actually occur
in a text line). -/
def isWs (c : Char) : Bool := c = ' ' || c = '\t' || c = '\n' || c = '\r'

/-- str::trim: remove leading and trailing whitespace. -/
def trim (l : Str) : Str :=
  ((l.dropWhile isWs).reverse.dropWhile isWs).reverse

/-- str::split on a single separator character: "a,,b" gives three pieces,
the empty string gives one empty piece. -/
def splitOn (sep : Char) : Str → List Str
  | [] => [[]]
  | c :: rest =>
      if c = sep then [] :: splitOn sep rest
      else
        match splitOn sep rest with
        | h :: t => (c :: h) :: t
        | [] => [[c]]

/-- extract_command from src/instruction.rs: split the line at its first
blank; a line with no blank has no opcode. -/
def extractCommand : Str → Option (Str × Str)
  | [] => none
  | c :: rest =>
      if c = ' ' then some ([], rest)
      else (extractCommand rest).map (fun p => (c :: p.1, p.2))

/-- The fixed register table of register_from_str from src/instruction.rs. -/
def regTable : List (Str × Nat) :=
  [("$zero".toList, 0), ("$at".toList, 1), ("$v0".toList, 2), ("$v1".toList, 3),
   ("$a0".toList, 4), ("$a1".toList, 5), ("$a2".toList, 6), ("$a3".toList, 7),
   ("$t0".toList, 8), ("$t1".toList, 9), ("$t2".toList, 10), ("$t3".toList, 11),
   ("$t4".toList, 12), ("$t5".toList, 13), ("$t6".toList, 14), ("$t7".toList, 15),
   ("$s0".toList, 16), ("$s1".toList, 17), ("$s2".toList, 18), ("$s3".toList, 19),
   ("$s4".toList, 20), ("$s5".toList, 21), ("$s6".toList, 22), ("$s7".toList, 23),
   ("$t8".toList, 24), ("$t9".toList, 25), ("$k0".toList, 26), ("$k1".toList, 27),
   ("$gp".toList, 28), ("$sp".toList, 29), ("$fp".toList, 30), ("$ra".toList, 31)]

/-- register_from_str from src/instruction.rs: the total fixed mapping from
register mnemonics to their 5-bit index. -/
def registerFromStr (reg : Str) : Option Nat :=
  (regTable.find? (fun e => e.1 == reg)).map (fun e => e.2)

/-- parse_two_registers from src/instruction.rs: split on the comma, trim
each piece, demand exactly two pieces, and resolve both registers in order. -/
def parseTwoRegisters (rest : Str) : Except AssemblerError (Nat × Nat) :=
  match (splitOn ',' rest).map trim with
  | [a, b] =>
      match registerFromStr a with
      | none => .error (.UnknownRegister a)
      | some r1 =>
          match registerFromStr b with
          | none => .error (.UnknownRegister b)
          | some r2 => .ok (r1, r2)
  | ls => .error (.InvalidNoOfArgs 2 ls.length)

/-- The Sign enum from src/instruction.rs. -/
inductive Sign : Type where
  | positive
  | negative
deriving DecidableEq, Repr

/-- parse_sign from src/instruction.rs reads the FIRST byte of the numeral
text; on the empty string the Rust code indexes out of bounds and panics,
modelled here by the none result. -/
def parseSign : Str → Option (Sign × Str)
  | [] => none
  | c :: rest =>
      if c = '+' then some (.positive, rest)
      else if c = '-' then some (.negative, rest)
      else some (.positive, c :: rest)

/-- parse_radix from src/instruction.rs: a two-character radix marker
selects hexadecimal, binary or octal; anything else is decimal. -/
def parseRadix (num : Str) : Nat × Str :=
  match num with
  | c1 :: c2 :: rest =>
      if [c1, c2] = "0x".toList then (16, rest)
      else if [c1, c2] = "0b".toList then (2, rest)
      else if [c1, c2] = "0o".toList then (8, rest)
      else (10, num)
  | _ => (10, num)

/-- char::to_digit: the numeric value of one digit character. -/
def digitVal (c : Char) : Option Nat :=
  if '0' ≤ c ∧ c ≤ '9' then some (c.toNat - '0'.toNat)
  else if 'a' ≤ c ∧ c ≤ 'z' then some (c.toNat - 'a'.toNat + 10)
  else if 'A' ≤ c ∧ c ≤ 'Z' then some (c.toNat - 'A'.toNat + 10)
  else none

/-- The digit-accumulation loop of from_str_radix: each character must be a
digit below the radix; the running value may not exceed the type maximum. -/
def digitsToNat (radix maxVal : Nat) : Str → Nat → Option Nat
  | [], acc => some acc
  | c :: rest, acc =>
      match digitVal c with
      | none => none
      | some d =>
          if d < radix then
            let acc' := acc * radix + d
            if acc' ≤ maxVal then digitsToNat radix maxVal rest acc'
            else none
          else none

/-- from_str_radix of an unsigned Rust integer type with maximum value
maxVal: an optional single leading sign, then at least one digit in the
given radix; a minus sign only parses for the value zero (each digit is
subtracted with an underflow check) and overflow is an error. -/
def fromStrRadixU (maxVal : Nat) (s : Str) (radix : Nat) : Option Nat :=
  match s with
  | [] => none
  | '+' :: ds =>
      if ds = [] then none else digitsToNat radix maxVal ds 0
  | '-' :: ds =>
      if ds = [] then none
      else
        match digitsToNat radix maxVal ds 0 with
        | some 0 => some 0
        | _ => none
  | ds => digitsToNat radix maxVal ds 0

/-- Sign::to_sign from src/instruction.rs for a type whose values occupy
modulus = 2^width: widen to i32, negate when the sign was negative, and
truncate back to the unsigned width (two's-complement wrap). -/
def toSignW (modulus : Nat) (sign : Sign) (val : Nat) : Nat :=
  let signedVal : Int := (val : Int)
  let afterSign : Int :=
    match sign with
    | .positive => signedVal
    | .negative => -signedVal
  (afterSign % (modulus : Int)).toNat

/-- parse_register_and_value from src/instruction.rs for the unsigned
target type of modulus 2^width (65536 for u16, 256 for u8): split on the
comma, trim, demand two pieces, resolve the register, then parse the
signed, radix-prefixed numeral.  Reading the sign of an empty numeral
panics. -/
def parseRegisterAndValue (modulus : Nat) (rest : Str) : POutcome (Nat × Nat) :=
  match (splitOn ',' rest).map trim with
  | [a, b] =>
      match registerFromStr a with
      | none => .err (.UnknownRegister a)
      | some reg =>
          match parseSign b with
          | none => .panicked
          | some (sign, numStr) =>
              let (radix, ds) := parseRadix numStr
              match fromStrRadixU (modulus - 1) ds radix with
              | none => .err (.InvalidNumber ds)
              | some val => .ok (reg, toSignW modulus sign val)
  | ls => .err (.InvalidNoOfArgs 2 ls.length)

/-- A character matched by the [a-z0-9] class of the memory-access
regular expression. -/
def isRegChar (c : Char) : Bool :=
  ('a' ≤ c && c ≤ 'z') || ('0' ≤ c && c ≤ '9')

/-- One anchored attempt of the memory-access regular expression
(dollar, two [a-z0-9] characters, optional spaces, a comma, optional
spaces, a nonempty run of non-parenthesis characters, then a
parenthesised dollar-register) at the start of the text.  The spaces and
the run are matched greedily; the only backtracking a regex engine ever
performs here is giving one space back to the nonempty run when the run
would otherwise be empty. -/
def memMatchAt (l : Str) : Option (Str × Str × Str) :=
  match l with
  | '$' :: c1 :: c2 :: rest =>
      if isRegChar c1 && isRegChar c2 then
        match rest.dropWhile (fun c => c = ' ') with
        | ',' :: afterComma =>
            let spaces := afterComma.takeWhile (fun c => c = ' ')
            let afterSpaces := afterComma.dropWhile (fun c => c = ' ')
            let run := afterSpaces.takeWhile (fun c => c ≠ '(')
            let tail := afterSpaces.dropWhile (fun c => c ≠ '(')
            if run ≠ [] then
              match tail with
              | '(' :: '$' :: d1 :: d2 :: ')' :: _ =>
                  if isRegChar d1 && isRegChar d2 then
                    some (['$', c1, c2], run, ['$', d1, d2])
                  else none
              | _ => none
            else
              match spaces, afterSpaces with
              | _ :: _, '(' :: '$' :: d1 :: d2 :: ')' :: _ =>
                  if isRegChar d1 && isRegChar d2 then
                    some (['$', c1, c2], [' '], ['$', d1, d2])
                  else none
              | _, _ => none
        | _ => none
      else none
  | _ => none

/-- Regex::captures for the memory-access pattern of parse_mem_access:
the leftmost match in the text, returning the three capture groups. -/
def memCaptures : Str → Option (Str × Str × Str)
  | [] => none
  | c :: rest =>
      match memMatchAt (c :: rest) with
      | some caps => some caps
      | none => memCaptures rest

/-- parse_mem_access from src/instruction.rs: match the text against the
memory-access pattern, then resolve the transfer register, the signed
radix-prefixed offset and the base register from the capture groups.  The
second capture group is nonempty by construction, so the sign parse cannot
panic there. -/
def parseMemAccess (rest : Str) : POutcome (Nat × Nat × Nat) :=
  match memCaptures rest with
  | none => .err (.InvalidInstruction rest)
  | some (cap1, cap2, cap3) =>
      match registerFromStr cap1 with
      | none => .err (.UnknownRegister cap1)
      | some rt =>
          match parseSign cap2 with
          | none => .panicked
          | some (sign, numStr) =>
              let (radix, ds) := parseRadix numStr
              match fromStrRadixU 65535 ds radix with
              | none => .err (.InvalidNumber ds)
              | some imm =>
                  match registerFromStr cap3 with
                  | none => .err (.UnknownRegister cap3)
                  | some rs => .ok (rt, toSignW 65536 sign imm, rs)

/-- parse_reg_label from src/instruction.rs: a register and a bare label
name, comma separated. -/
def parseRegLabel (rest : Str) : Except AssemblerError (Nat × RelLabel) :=
  match (splitOn ',' rest).map trim with
  | [a, b] =>
      match registerFromStr a with
      | none => .error (.UnknownRegister a)
      | some reg => .ok (reg, ⟨b, none⟩)
  | ls => .error (.InvalidNoOfArgs 2 ls.length)

/-- Lift a Result-returning parser into the panic-aware outcome type. -/
def liftE {α : Type} : Except AssemblerError α → POutcome α
  | .error e => .err e
  | .ok a => .ok a

/-- Map over a successful panic-aware outcome. -/
def POutcome.map {α β : Type} (f : α → β) : POutcome α → POutcome β
  | .panicked => .panicked
  | .err e => .err e
  | .ok a => .ok (f a)

/-- TryFrom for str from src/instruction.rs: split off the mnemonic and
dispatch to the per-format operand parser. -/
def tryFromStr (instr : Str) : POutcome Instruction :=
  match extractCommand instr with
  | none => .err (.OpcodeMissing instr)
  | some (comm, rest) =>
      if comm = "add".toList then
        (liftE (parseTwoRegisters rest)).map (fun p => .Add p.1 p.2)
      else if comm = "comp".toList then
        (liftE (parseTwoRegisters rest)).map (fun p => .Comp p.1 p.2)
      else if comm = "addi".toList then
        (parseRegisterAndValue 65536 rest).map (fun p => .AddImm p.1 p.2)
      else if comm = "compi".toList then
        (parseRegisterAndValue 65536 rest).map (fun p => .CompImm p.1 p.2)
      else if comm = "and".toList then
        (liftE (parseTwoRegisters rest)).map (fun p => .And p.1 p.2)
      else if comm = "xor".toList then
        (liftE (parseTwoRegisters rest)).map (fun p => .Xor p.1 p.2)
      else if comm = "sll".toList then
        (parseRegisterAndValue 256 rest).map (fun p => .Sll p.1 p.2)
      else if comm = "srl".toList then
        (parseRegisterAndValue 256 rest).map (fun p => .Srl p.1 p.2)
      else if comm = "sra".toList then
        (parseRegisterAndValue 256 rest).map (fun p => .Sra p.1 p.2)
      else if comm = "sllv".toList then
        (liftE (parseTwoRegisters rest)).map (fun p => .Sllv p.1 p.2)
      else if comm = "srlv".toList then
        (liftE (parseTwoRegisters rest)).map (fun p => .Srlv p.1 p.2)
      else if comm = "srav".toList then
        (liftE (parseTwoRegisters rest)).map (fun p => .Srav p.1 p.2)
      else if comm = "lw".toList then
        (parseMemAccess rest).map (fun p => .Lw p.1 p.2.1 p.2.2)
      else if comm = "sw".toList then
        (parseMemAccess rest).map (fun p => .Sw p.1 p.2.1 p.2.2)
      else if comm = "b".toList then
        .ok (.B ⟨trim rest, none⟩)
      else if comm = "bl".toList then
        .ok (.Bl ⟨trim rest, none⟩)
      else if comm = "br".toList then
        match registerFromStr rest with
        | none => .err (.UnknownRegister rest)
        | some rs => .ok (.Br rs)
      else if comm = "bcy".toList then
        .ok (.Bcy ⟨trim rest, none⟩)
      else if comm = "bncy".toList then
        .ok (.Bncy ⟨trim rest, none⟩)
      else if comm = "bltz".toList then
        (liftE (parseRegLabel rest)).map (fun p => .Bltz p.1 p.2)
      else if comm = "bz".toList then
        (liftE (parseRegLabel rest)).map (fun p => .Bz p.1 p.2)
      else if comm = "bnz".toList then
        (liftE (parseRegLabel rest)).map (fun p => .Bnz p.1 p.2)
      else .err (.UnknownInstruction comm)

/-- Instruction::from_str from src/instruction.rs: the three pseudo
mnemonics expand to two primitive instructions each; any other line yields
the single instruction produced by the TryFrom parser.  The stack-pointer
register is index 29 and the negative word-size immediate is -4 as a u16,
namely 65532. -/
def fromStr (instr : Str) : POutcome (List Instruction) :=
  match extractCommand instr with
  | none => .err (.OpcodeMissing instr)
  | some (comm, rest) =>
      if comm = "push".toList then
        match registerFromStr rest with
        | none => .err (.UnknownRegister rest)
        | some reg => .ok [.Sw reg 0 29, .AddImm 29 65532]
      else if comm = "pop".toList then
        match registerFromStr rest with
        | none => .err (.UnknownRegister rest)
        | some reg => .ok [.AddImm 29 4, .Lw reg 0 29]
      else if comm = "mov".toList then
        match parseTwoRegisters rest with
        | .error e => .err e
        | .ok (dest, src) => .ok [.Xor dest dest, .Add dest src]
      else (tryFromStr instr).map (fun i => [i])

/-- A character of the identifier class [a-zA-Z0-9_] of the label
regular expression. -/
def isIdChar (c : Char) : Bool :=
  ('a' ≤ c && c ≤ 'z') || ('A' ≤ c && c ≤ 'Z') || ('0' ≤ c && c ≤ '9') || c = '_'

/-- The scan implementing the unanchored leftmost match of the label
regular expression: run is the reversed maximal identifier run ending just
before the current position; a colon right after a nonempty run closes the
leftmost match, any other non-identifier character resets the run.  A
match attempt starting inside an identifier run meets the same character
after the run as one starting at the run's head, so the leftmost match is
exactly the first identifier run immediately followed by a colon. -/
def detectLabelGo (run : Str) : Str → Option Str
  | [] => none
  | c :: rest =>
      if isIdChar c then detectLabelGo (c :: run) rest
      else if c = ':' && run ≠ [] then some run.reverse
      else detectLabelGo [] rest

/-- detect_label from src/main.rs: the leftmost match of an identifier run
immediately followed by a colon, anywhere in the line (the regular
expression is unanchored), returning the captured identifier. -/
def detectLabel (l : Str) : Option Str :=
  detectLabelGo [] l

/-- The label table: src/main.rs uses a HashMap from label name to the
defining instruction index; insertion silently overwrites, which the
front-insertion plus first-match lookup below reproduces. -/
abbrev LabelMap := List (Str × Nat)

/-- HashMap::insert for the label table (overwriting semantics). -/
def insertLabel (name : Str) (idx : Nat) (m : LabelMap) : LabelMap :=
  (name, idx) :: m

/-- HashMap lookup for the label table; none models the missing key on
which the Index operator used by assign_labels panics. -/
def lookupLabel (m : LabelMap) (name : Str) : Option Nat :=
  (m.find? (fun e => e.1 == name)).map (fun e => e.2)

/-- The ParsedAsm struct from src/main.rs. -/
structure ParsedAsm : Type where
  instrs : List Instruction
  labels : LabelMap
deriving DecidableEq, Repr

/-- Truncate a line at its first end-of-line comment marker, as the comment
stripping in parse_file does. -/
def stripComment : Str → Str
  | '/' :: '/' :: _ => []
  | c :: rest => c :: stripComment rest
  | [] => []

/-- The per-line step of parse_file from src/main.rs: trim the line, skip
it when it begins a line comment, cut an end-of-line comment, then either
record a label at the current instruction count or append the parsed
instructions. -/
def processLine (st : ParsedAsm) (line : Str) : POutcome ParsedAsm :=
  let l := trim line
  if l.take 2 = "//".toList then .ok st
  else
    let l := stripComment l
    match detectLabel l with
    | some label => .ok ⟨st.instrs, insertLabel label st.instrs.length st.labels⟩
    | none =>
        match fromStr l with
        | .panicked => .panicked
        | .err e => .err e
        | .ok new => .ok ⟨st.instrs ++ new, st.labels⟩

/-- The line loop of parse_file, starting from a given partial state. -/
def parseLinesFrom (st : ParsedAsm) : List Str → POutcome ParsedAsm
  | [] => .ok st
  | line :: rest =>
      match processLine st line with
      | .panicked => .panicked
      | .err e => .err e
      | .ok st' => parseLinesFrom st' rest

/-- parse_file from src/main.rs with the file input replaced by the list of
its text lines (the excluded I/O layer). -/
def parseLines (lines : List Str) : POutcome ParsedAsm :=
  parseLinesFrom ⟨[], []⟩ lines

/-- The relative-displacement computation of ParsedAsm::assign_labels for
the instruction at index i and a label defined at index j: both positions
are scaled to u32 byte addresses, subtracted with i32 wraparound, truncated
to i16 (the low 16 bits, read as two's complement), arithmetically shifted
right by two (floor division by 4 on the signed value), and reinterpreted
as a u16. -/
def relDisplacement (i j : Nat) : Nat :=
  let nextPc := (4 * ((i % 4294967296) + 1)) % 4294967296
  let labelAddr := (4 * (j % 4294967296)) % 4294967296
  let diffBits := (labelAddr + 4294967296 - nextPc) % 4294967296
  let low := diffBits % 65536
  let sv : Int := if low < 32768 then (low : Int) else (low : Int) - 65536
  ((Int.fdiv sv 4) % 65536).toNat

/-- The body of the loop in ParsedAsm::assign_labels for a single
instruction at index idx: an absolute label gets the label index times
four plus the offset (u32 arithmetic); a relative label gets the
displacement computed by relDisplacement; looking up an undefined label
panics (none). -/
def resolveInstr (off : Nat) (labels : LabelMap) (idx : Nat)
    (instr : Instruction) : Option Instruction :=
  if instr.hasAbsLabel then
    match lookupLabel labels instr.getLabelName with
    | none => none
    | some j =>
        some (instr.setAbsAddr
          ((off % 4294967296 + (4 * (j % 4294967296)) % 4294967296) % 4294967296))
  else if instr.hasRelLabel then
    match lookupLabel labels instr.getLabelName with
    | none => none
    | some j => some (instr.setRelAddr (relDisplacement idx j))
  else some instr

/-- The enumerated loop of ParsedAsm::assign_labels, carrying the index of
the next instruction. -/
def assignLabelsGo (off : Nat) (labels : LabelMap) (idx : Nat) :
    List Instruction → Option (List Instruction)
  | [] => some []
  | instr :: rest =>
      match resolveInstr off labels idx instr with
      | none => none
      | some instr' =>
          match assignLabelsGo off labels (idx + 1) rest with
          | none => none
          | some rest' => some (instr' :: rest')

/-- ParsedAsm::assign_labels from src/main.rs: resolve every label-carrying
instruction in sequence; none models the HashMap-index panic on an
undefined label. -/
def assignLabels (off : Nat) (instrs : List Instruction) (labels : LabelMap) :
    Option (List Instruction) :=
  assignLabelsGo off labels 0 instrs

/-- The encoding loop of ParsedAsm::write_coe, without the file output: the
words of the instructions in order, stopping at the first encoding error. -/
def encodeAll : List Instruction → Except AssemblerError (List Nat)
  | [] => .ok []
  | i :: rest =>
      match i.encode with
      | .error e => .error e
      | .ok w =>
          match encodeAll rest with
          | .error e => .error e
          | .ok ws => .ok (w :: ws)

/-- The whole pipeline run by main for an already-line-split source: parse,
assign labels with the given base offset (main passes 0), then encode. -/
def assemble (lines : List Str) (off : Nat) : POutcome (List Nat) :=
  match parseLines lines with
  | .panicked => .panicked
  | .err e => .err e
  | .ok pa =>
      match assignLabels off pa.instrs pa.labels with
      | none => .panicked
      | some instrs =>
          match encodeAll instrs with
          | .error e => .err e
          | .ok ws => .ok ws

/-! Helper lemmas about the string primitives, shared by the claim
theorems below. -/

/-- Splitting a separator-free string yields the single piece. -/
theorem splitOn_not_mem {c : Char} : ∀ {l : Str}, c ∉ l → splitOn c l = [l]
  | [], _ => rfl
  | x :: xs, h => by
    have hx : ¬x = c := fun hc => h (hc ▸ List.mem_cons_self x xs)
    have hxs : c ∉ xs := fun hc => h (List.mem_cons_of_mem x hc)
    simp only [splitOn, if_neg hx, splitOn_not_mem hxs]

/-- Splitting at the first separator detaches the separator-free prefix. -/
theorem splitOn_append {c : Char} {a : Str} (h : c ∉ a) (b : Str) :
    splitOn c (a ++ c :: b) = a :: splitOn c b := by
  induction a with
  | nil => simp [splitOn]
  | cons x xs ih =>
      have hx : ¬x = c := fun hc => h (hc ▸ List.mem_cons_self x xs)
      have hxs : c ∉ xs := fun hc => h (List.mem_cons_of_mem x hc)
      have ih' := ih hxs
      simp only [List.cons_append, splitOn, if_neg hx]
      rw [show xs.append (c :: b) = xs ++ c :: b from rfl, ih']

/-- dropWhile is the identity on a list none of whose elements satisfy the
predicate. -/
theorem dropWhile_eq_self_of {p : Char → Bool} :
    ∀ {l : Str}, (∀ x ∈ l, p x = false) → l.dropWhile p = l
  | [], _ => rfl
  | x :: xs, h => by
    simp [List.dropWhile_cons, h x (List.mem_cons_self x xs)]

/-- trim is the identity on a string with no whitespace at all. -/
theorem trim_eq_self_of {l : Str} (h : ∀ x ∈ l, isWs x = false) :
    trim l = l := by
  unfold trim
  rw [dropWhile_eq_self_of h, dropWhile_eq_self_of, List.reverse_reverse]
  intro x hx
  exact h x (List.mem_reverse.mp hx)

/-- trim swallows one leading blank. -/
theorem trim_cons_space (l : Str) : trim (' ' :: l) = trim l := by
  simp [trim, List.dropWhile_cons, isWs]

/-- A character that may appear in a register name or numeric literal
without disturbing the comma split and the trimming around it. -/
def cleanChar (c : Char) : Bool := !(c == ',') && !(isWs c)

/-- Every register mnemonic in the table is nonempty and free of commas
and whitespace. -/
theorem registerFromStr_clean {r : Str} {k : Nat}
    (h : registerFromStr r = some k) : r.all cleanChar = true ∧ r ≠ [] := by
  unfold registerFromStr at h
  cases hf : regTable.find? (fun e => e.1 == r) with
  | none => rw [hf] at h; exact absurd h (by simp)
  | some e =>
      have hm : e ∈ regTable := List.mem_of_find?_eq_some hf
      have hp := List.find?_some hf
      have her : e.1 = r := by simpa [beq_iff_eq] using hp
      have : ∀ e ∈ regTable, e.1.all cleanChar = true ∧ e.1 ≠ [] := by decide
      exact her ▸ this e hm

/-- Clean strings contain no comma. -/
theorem not_mem_comma_of_clean {r : Str} (h : r.all cleanChar = true) :
    ',' ∉ r := by
  intro hm
  have := (List.all_eq_true.mp h) ',' hm
  simp [cleanChar] at this

/-- Clean strings contain no whitespace. -/
theorem not_ws_of_clean {r : Str} (h : r.all cleanChar = true) :
    ∀ x ∈ r, isWs x = false := by
  intro x hx
  have := (List.all_eq_true.mp h) x hx
  simp [cleanChar] at this
  exact this.2

/-- extract_command splits at the first blank: with a blank-free mnemonic
in front, it returns the mnemonic and everything after the blank. -/
theorem extractCommand_append {p : Str} (h : ' ' ∉ p) (r : Str) :
    extractCommand (p ++ ' ' :: r) = some (p, r) := by
  induction p with
  | nil => simp [extractCommand]
  | cons x xs ih =>
      have hx : ¬x = ' ' := fun hc => h (hc ▸ List.mem_cons_self x xs)
      have hxs : ' ' ∉ xs := fun hc => h (List.mem_cons_of_mem x hc)
      simp only [List.cons_append, extractCommand, if_neg hx]
      rw [show xs.append (' ' :: r) = xs ++ ' ' :: r from rfl, ih hxs]
      rfl

/-- The two-piece comma split of a clean register text, a comma, a blank
and a value text whose characters are clean. -/
theorem splitTwo_of_clean {a v : Str} (ha : a.all cleanChar = true)
    (hv : v.all cleanChar = true) :
    (splitOn ',' (a ++ ',' :: ' ' :: v)).map trim = [a, v] := by
  rw [splitOn_append (not_mem_comma_of_clean ha),
    @splitOn_not_mem ',' (' ' :: v) (by
      intro hm
      rcases List.mem_cons.mp hm with h1 | h2
      · exact absurd h1.symm (by decide)
      · exact not_mem_comma_of_clean hv h2)]
  simp only [List.map, trim_cons_space]
  rw [trim_eq_self_of (not_ws_of_clean ha), trim_eq_self_of (not_ws_of_clean hv)]

/-- A relative-label instruction is never an absolute-label instruction. -/
theorem hasAbsLabel_eq_false_of_rel {i : Instruction}
    (h : i.hasRelLabel = true) : i.hasAbsLabel = false := by
  cases i <;> simp_all [Instruction.hasAbsLabel, Instruction.hasRelLabel]

/-- Element-wise description of a successful assign_labels loop: every
input instruction resolves, and the output at each index is its resolved
form. -/
theorem assignLabelsGo_get {off : Nat} {labels : LabelMap} :
    ∀ {l out : List Instruction} {k : Nat},
      assignLabelsGo off labels k l = some out →
      ∀ i instr, l[i]? = some instr →
        ∃ o, resolveInstr off labels (k + i) instr = some o ∧ out[i]? = some o := by
  intro l
  induction l with
  | nil => intro out k h i instr hi; simp at hi
  | cons a rest ih =>
      intro out k h i instr hi
      cases hres : resolveInstr off labels k a with
      | none => rw [assignLabelsGo, hres] at h; exact absurd h (by simp)
      | some a' =>
          cases hrest : assignLabelsGo off labels (k + 1) rest with
          | none =>
              rw [assignLabelsGo, hres, hrest] at h
              exact absurd h (by simp)
          | some rest' =>
              rw [assignLabelsGo, hres, hrest] at h
              have hout : out = a' :: rest' := by
                simpa using h.symm
              subst hout
              cases i with
              | zero =>
                  have : a = instr := by simpa using hi
                  subst this
                  exact ⟨a', by simpa using hres, by simp⟩
              | succ n =>
                  have hn : rest[n]? = some instr := by simpa using hi
                  obtain ⟨o, ho, ho'⟩ := ih hrest n instr hn
                  refine ⟨o, ?_, by simpa using ho'⟩
                  have : k + 1 + n = k + (n + 1) := by omega
                  rw [← this]; exact ho

/-- A run of instructions with no label passes through assign_labels
unchanged (each Add resolves to itself). -/
theorem assignLabelsGo_replicate_add {off : Nat} {labels : LabelMap} :
    ∀ (n k : Nat),
      assignLabelsGo off labels k (List.replicate n (.Add 0 0))
        = some (List.replicate n (.Add 0 0))
  | 0, _ => rfl
  | n + 1, k => by
      rw [List.replicate_succ, assignLabelsGo]
      rw [show resolveInstr off labels k (.Add 0 0) = some (.Add 0 0) from rfl]
      rw [assignLabelsGo_replicate_add n (k + 1)]

/-- The displacement formula exactly as the claim states it: the byte
difference (j - i - 1) * 4 is arithmetically shifted right by two with the
sign preserved and only then truncated to 16 bits.  Written from the
claim's words for comparison with the implementation's relDisplacement. -/
def claimedRelDisplacement (i j : Nat) : Nat :=
  ((Int.fdiv (((j : Int) - (i : Int) - 1) * 4) 4) % 65536).toNat

/-- Floor division by four is euclidean division by four. -/
theorem fdiv_four (x : Int) : x.fdiv 4 = x / 4 :=
  Int.fdiv_eq_ediv x (by norm_num)

/-- Closed form of the implementation's displacement for an in-window
forward reference. -/
theorem relDisplacement_forward {i j : Nat} (hij : i + 1 ≤ j)
    (hj : j ≤ 536870911) (ht : j - i - 1 ≤ 8191) :
    relDisplacement i j = j - i - 1 := by
  have e1 : i % 4294967296 = i := Nat.mod_eq_of_lt (by omega)
  have e2 : j % 4294967296 = j := Nat.mod_eq_of_lt (by omega)
  have e3 : (4 * (i + 1)) % 4294967296 = 4 * (i + 1) := by omega
  have e4 : (4 * j) % 4294967296 = 4 * j := by omega
  have e5 : (4 * j + 4294967296 - 4 * (i + 1)) % 4294967296
      = 4 * (j - i - 1) := by omega
  have e6 : (4 * (j - i - 1)) % 65536 = 4 * (j - i - 1) := by omega
  unfold relDisplacement
  simp only [e1, e2, e3, e4, e5, e6]
  rw [if_pos (by omega), fdiv_four]
  omega

/-- Closed form of the implementation's displacement for an in-window
backward (or self) reference. -/
theorem relDisplacement_backward {i j : Nat} (hij : j ≤ i)
    (hi : i ≤ 536870911) (hu : i + 1 - j ≤ 8192) :
    relDisplacement i j = 65536 - (i + 1 - j) := by
  have e1 : i % 4294967296 = i := Nat.mod_eq_of_lt (by omega)
  have e2 : j % 4294967296 = j := Nat.mod_eq_of_lt (by omega)
  have e3 : (4 * (i + 1)) % 4294967296 = 4 * (i + 1) := by omega
  have e4 : (4 * j) % 4294967296 = 4 * j := by omega
  have e5 : (4 * j + 4294967296 - 4 * (i + 1)) % 4294967296
      = 4294967296 - 4 * (i + 1 - j) := by omega
  have e6 : (4294967296 - 4 * (i + 1 - j)) % 65536
      = 65536 - 4 * (i + 1 - j) := by omega
  unfold relDisplacement
  simp only [e1, e2, e3, e4, e5, e6]
  rw [if_neg (by omega), fdiv_four]
  omega

/-- Inside the signed 16-bit window the implementation's displacement
agrees with the claim's formula. -/
theorem relDisplacement_eq_claimed {i j : Nat}
    (hi : i ≤ 536870911) (hj : j ≤ 536870911)
    (hlo : -8192 ≤ (j : Int) - (i : Int) - 1)
    (hhi : (j : Int) - (i : Int) - 1 ≤ 8191) :
    relDisplacement i j = claimedRelDisplacement i j := by
  rcases le_or_lt (i + 1) j with hf | hb
  · rw [relDisplacement_forward hf hj (by omega)]
    unfold claimedRelDisplacement
    rw [fdiv_four]
    omega
  · rw [relDisplacement_backward (by omega) hi (by omega)]
    unfold claimedRelDisplacement
    rw [fdiv_four]
    omega

/-! Claim C2: label resolution. -/

/-- C2 (corrected): in a program whose referenced labels are all defined,
the resolution pass gives each absolute-label instruction the address
definingPosition * 4 plus the base offset (stated below the u32 range),
and gives each relative-label instruction at index i targeting a label
defined at index j the displacement obtained by truncating the byte
difference (j - i - 1) * 4 to 16 bits and then arithmetic-shifting right
by 2 -- which agrees with the claim's shift-then-truncate formula exactly
when j - i - 1 lies inside the signed 16-bit displacement window. -/
theorem claim2_resolution (off : Nat) (instrs out : List Instruction)
    (labels : LabelMap) (h : assignLabels off instrs labels = some out) :
    (∀ (i j : Nat) (instr : Instruction),
      instrs[i]? = some instr → instr.hasAbsLabel = true →
      lookupLabel labels instr.getLabelName = some j →
      off + 4 * j < 4294967296 →
      out[i]? = some (instr.setAbsAddr (off + 4 * j)))
    ∧ (∀ (i j : Nat) (instr : Instruction),
      instrs[i]? = some instr → instr.hasRelLabel = true →
      lookupLabel labels instr.getLabelName = some j →
      out[i]? = some (instr.setRelAddr (relDisplacement i j)))
    ∧ (∀ i j : Nat, i ≤ 536870911 → j ≤ 536870911 →
      -8192 ≤ (j : Int) - (i : Int) - 1 → (j : Int) - (i : Int) - 1 ≤ 8191 →
      relDisplacement i j = claimedRelDisplacement i j) := by
  have h' : assignLabelsGo off labels 0 instrs = some out := h
  refine ⟨?_, ?_, fun i j hi hj hlo hhi => relDisplacement_eq_claimed hi hj hlo hhi⟩
  · intro i j instr hget habs hlook hlt
    obtain ⟨o, ho, hout⟩ := assignLabelsGo_get h' i instr hget
    rw [Nat.zero_add] at ho
    have hres : resolveInstr off labels i instr
        = some (instr.setAbsAddr
          ((off % 4294967296 + (4 * (j % 4294967296)) % 4294967296) % 4294967296)) := by
      unfold resolveInstr
      rw [habs, hlook]
      simp
    rw [hres] at ho
    have ho' : o = instr.setAbsAddr
        ((off % 4294967296 + (4 * (j % 4294967296)) % 4294967296) % 4294967296) := by
      simpa using ho.symm
    subst ho'
    rw [hout]
    congr 2
    omega
  · intro i j instr hget hrel hlook
    obtain ⟨o, ho, hout⟩ := assignLabelsGo_get h' i instr hget
    rw [Nat.zero_add] at ho
    have hres : resolveInstr off labels i instr
        = some (instr.setRelAddr (relDisplacement i j)) := by
      unfold resolveInstr
      rw [hasAbsLabel_eq_false_of_rel hrel, hrel, hlook]
      simp
    rw [hres] at ho
    have ho' : o = instr.setRelAddr (relDisplacement i j) := by
      simpa using ho.symm
    subst ho'
    exact hout

/-- C2 counterexample: a relative branch at index 0 to a label defined at
index 8193 (a real program: the branch, 8192 filler instructions, then
the label line at the end).  The claim's shift-then-truncate formula
yields 8192, but the code truncates the byte difference to 16 bits first
and resolves the displacement to 57344. -/
theorem claim2_counterexample :
    assignLabels 0
      (Instruction.Bz 8 ⟨"L".toList, none⟩ :: List.replicate 8192 (.Add 0 0))
      [("L".toList, 8193)]
    = some (Instruction.Bz 8 ⟨"L".toList, some 57344⟩ ::
        List.replicate 8192 (.Add 0 0))
    ∧ claimedRelDisplacement 0 8193 = 8192
    ∧ (57344 : Nat) ≠ 8192 := by
  refine ⟨?_, by decide, by decide⟩
  have h1 : resolveInstr 0 [("L".toList, 8193)] 0 (.Bz 8 ⟨"L".toList, none⟩)
      = some (.Bz 8 ⟨"L".toList, some 57344⟩) := by decide
  have key : ∀ rep : List Instruction,
      assignLabelsGo 0 [("L".toList, 8193)] 1 rep = some rep →
      assignLabelsGo 0 [("L".toList, 8193)] 0
          (Instruction.Bz 8 ⟨"L".toList, none⟩ :: rep)
        = some (Instruction.Bz 8 ⟨"L".toList, some 57344⟩ :: rep) := by
    intro rep hrep
    simp only [assignLabelsGo, h1, hrep]
  exact key _ (@assignLabelsGo_replicate_add 0 [("L".toList, 8193)] 8192 1)

/-- C2 witness: a three-instruction program with an absolute branch at
index 0 and a relative branch at index 1, both to a label defined at
index 2, resolved with base offset 100; both parts of claim2_resolution
are instantiated on it, as is the window agreement at i = 1, j = 2. -/
theorem claim2_witness :
    assignLabels 100
      [Instruction.B ⟨"L".toList, none⟩,
       Instruction.Bz 8 ⟨"L".toList, none⟩,
       Instruction.Add 0 0]
      [("L".toList, 2)]
      = some
        [Instruction.B ⟨"L".toList, some 108⟩,
         Instruction.Bz 8 ⟨"L".toList, some 0⟩,
         Instruction.Add 0 0]
    ∧ [Instruction.B ⟨"L".toList, some 108⟩,
       Instruction.Bz 8 ⟨"L".toList, some 0⟩,
       Instruction.Add 0 0][0]?
      = some ((Instruction.B ⟨"L".toList, none⟩).setAbsAddr (100 + 4 * 2))
    ∧ [Instruction.B ⟨"L".toList, some 108⟩,
       Instruction.Bz 8 ⟨"L".toList, some 0⟩,
       Instruction.Add 0 0][1]?
      = some ((Instruction.Bz 8 ⟨"L".toList, none⟩).setRelAddr (relDisplacement 1 2))
    ∧ relDisplacement 1 2 = claimedRelDisplacement 1 2 := by
  have h : assignLabels 100
      [Instruction.B ⟨"L".toList, none⟩,
       Instruction.Bz 8 ⟨"L".toList, none⟩,
       Instruction.Add 0 0]
      [("L".toList, 2)]
      = some
        [Instruction.B ⟨"L".toList, some 108⟩,
         Instruction.Bz 8 ⟨"L".toList, some 0⟩,
         Instruction.Add 0 0] := by decide
  refine ⟨h, ?_, ?_, ?_⟩
  · exact (claim2_resolution 100 _ _ _ h).1 0 2 _ (by decide) (by decide)
      (by decide) (by decide)
  · exact (claim2_resolution 100 _ _ _ h).2.1 1 2 _ (by decide) (by decide)
      (by decide)
  · exact (claim2_resolution 100 _ _ _ h).2.2 1 2 (by decide) (by decide)
      (by decide) (by decide)

/-! Claims C1, C3 and C10: undefined labels, concrete encodings, and the
empty-value panic. -/

/-- C1 (code bug): a program whose only line references the never-defined
label NoSuchLabel parses successfully (so the problem is indeed not caught
before resolution), but the resolution pass then panics on the missing
HashMap key instead of returning an undefined-label error value -- no such
error variant even exists -- and the whole pipeline aborts by panic,
producing no output words. -/
theorem claim1_undefined_label_panics :
    parseLines ["b NoSuchLabel".toList]
      = .ok ⟨[.B ⟨"NoSuchLabel".toList, none⟩], []⟩
    ∧ assignLabels 0 [.B ⟨"NoSuchLabel".toList, none⟩] [] = none
    ∧ assemble ["b NoSuchLabel".toList] 0 = .panicked := by
  refine ⟨by decide, by decide, by decide⟩

/-- C3 (confirmed): the four concrete scenario lines parse to the expected
typed instructions and encode to exactly the stated 32-bit words; the
label of the absolute branch is resolved to 0xA7FFF before encoding. -/
theorem claim3_concrete_encodings :
    tryFromStr "and $t2, $s7".toList = .ok (.And 10 23)
    ∧ Instruction.encode (.And 10 23) = .ok 0x11570000
    ∧ tryFromStr "addi $t2, 657".toList = .ok (.AddImm 10 657)
    ∧ Instruction.encode (.AddImm 10 657) = .ok 0x09400291
    ∧ tryFromStr "lw $t7, 657($t2)".toList = .ok (.Lw 15 657 10)
    ∧ Instruction.encode (.Lw 15 657 10) = .ok 0x314F0291
    ∧ tryFromStr "b L0".toList = .ok (.B ⟨"L0".toList, none⟩)
    ∧ Instruction.encode (.B ⟨"L0".toList, some 0xA7FFF⟩) = .ok 0x380A7FFF := by
  refine ⟨by decide, by decide, by decide, by decide, by decide, by decide,
    by decide, by decide⟩

/-- C10 (code bug): on a register+value line whose text after the comma is
empty or whitespace-only, parse_sign reads the first byte of an empty
slice and the parse panics instead of returning a structured error. -/
theorem claim10_empty_value_panics :
    fromStr "addi $t0,".toList = .panicked
    ∧ fromStr "addi $t0,   ".toList = .panicked
    ∧ parseRegisterAndValue 65536 "$t0,".toList = .panicked := by
  refine ⟨by decide, by decide, by decide⟩

/-! Claim C4: pseudo-instruction expansion. -/

/-- C4 (confirmed): for every valid register operand, push expands to
exactly the store-word at offset 0 from the stack pointer followed by the
add-immediate of -4 (65532 as a u16) to the stack pointer; pop expands to
the add-immediate of +4 followed by the load-word; and mov expands to the
self-xor of the destination followed by the add of the source -- so every
pseudo-instruction contributes exactly two primitive instructions. -/
theorem claim4_pseudo_expansion (rd rs : Str) (d s : Nat)
    (hd : registerFromStr rd = some d) (hs : registerFromStr rs = some s) :
    fromStr ("push ".toList ++ rd) = .ok [.Sw d 0 29, .AddImm 29 65532]
    ∧ fromStr ("pop ".toList ++ rd) = .ok [.AddImm 29 4, .Lw d 0 29]
    ∧ fromStr ("mov ".toList ++ rd ++ ", ".toList ++ rs)
      = .ok [.Xor d d, .Add d s] := by
  obtain ⟨hcd, -⟩ := registerFromStr_clean hd
  obtain ⟨hcs, -⟩ := registerFromStr_clean hs
  refine ⟨?_, ?_, ?_⟩
  · have he : extractCommand ('p' :: 'u' :: 's' :: 'h' :: ' ' :: rd)
        = some ("push".toList, rd) :=
      @extractCommand_append "push".toList (by decide) rd
    simp [fromStr, he, hd]
  · have he : extractCommand ('p' :: 'o' :: 'p' :: ' ' :: rd)
        = some ("pop".toList, rd) :=
      @extractCommand_append "pop".toList (by decide) rd
    simp [fromStr, he, hd]
  · have hshape : "mov ".toList ++ rd ++ ", ".toList ++ rs
        = "mov".toList ++ ' ' :: (rd ++ ',' :: ' ' :: rs) := by
      simp
    have he : extractCommand ('m' :: 'o' :: 'v' :: ' ' :: (rd ++ ',' :: ' ' :: rs))
        = some ("mov".toList, rd ++ ',' :: ' ' :: rs) :=
      @extractCommand_append "mov".toList (by decide) (rd ++ ',' :: ' ' :: rs)
    have hsplit := splitTwo_of_clean hcd hcs
    have hp2 : parseTwoRegisters (rd ++ ',' :: ' ' :: rs) = .ok (d, s) := by
      unfold parseTwoRegisters
      rw [hsplit]
      simp [hd, hs]
    rw [hshape]
    simp [fromStr, he, hp2]

/-- C4 witness: the expansions at the concrete registers $t0 and $t1. -/
theorem claim4_witness :
    registerFromStr "$t0".toList = some 8
    ∧ registerFromStr "$t1".toList = some 9
    ∧ fromStr "push $t0".toList = .ok [.Sw 8 0 29, .AddImm 29 65532]
    ∧ fromStr "pop $t0".toList = .ok [.AddImm 29 4, .Lw 8 0 29]
    ∧ fromStr "mov $t0, $t1".toList = .ok [.Xor 8 8, .Add 8 9] := by
  have h := claim4_pseudo_expansion "$t0".toList "$t1".toList 8 9
    (by decide) (by decide)
  exact ⟨by decide, by decide, h.1, h.2.1, h.2.2⟩

/-! Claim C5: signed immediates. -/

/-- A successfully parsed unsigned literal never exceeds the type bound. -/
theorem digitsToNat_le {radix maxVal : Nat} :
    ∀ {ds : Str} {acc v : Nat}, acc ≤ maxVal →
      digitsToNat radix maxVal ds acc = some v → v ≤ maxVal := by
  intro ds
  induction ds with
  | nil =>
      intro acc v hacc h
      have : acc = v := by simpa [digitsToNat] using h
      omega
  | cons c rest ih =>
      intro acc v hacc h
      rw [digitsToNat] at h
      split at h
      · exact absurd h (by simp)
      · split at h
        · dsimp only at h
          split at h
          · rename_i hle
            exact ih hle h
          · exact absurd h (by simp)
        · exact absurd h (by simp)

/-- from_str_radix of an unsigned type never returns more than the type
maximum. -/
theorem fromStrRadixU_le {maxVal radix N : Nat} :
    ∀ {ds : Str}, fromStrRadixU maxVal ds radix = some N → N ≤ maxVal := by
  intro ds h
  unfold fromStrRadixU at h
  split at h
  · exact absurd h (by simp)
  · split at h
    · exact absurd h (by simp)
    · exact digitsToNat_le (Nat.zero_le _) h
  · split at h
    · exact absurd h (by simp)
    · split at h
      · have : N = 0 := by simpa using h.symm
        omega
      · exact absurd h (by simp)
  · exact digitsToNat_le (Nat.zero_le _) h

/-- Negating a parsed magnitude wraps to its 16-bit two's complement. -/
theorem toSignW_negative {N : Nat} (h : N ≤ 65535) :
    toSignW 65536 .negative N = (65536 - N) % 65536 := by
  unfold toSignW
  dsimp only
  push_cast
  omega

/-- C5 (confirmed): a register+immediate line (addi or compi) with a
negative literal -N, where the magnitude N parses within the 16-bit
field, yields the immediate field holding the two's-complement bit
pattern (2^16 - N) mod 2^16.  The literal may carry any radix marker; its
text must be free of commas and whitespace, which every numeral is. -/
theorem claim5_signed_immediate (r lit ds : Str) (k radix N : Nat)
    (hr : registerFromStr r = some k)
    (hlit : lit.all cleanChar = true)
    (hrad : parseRadix lit = (radix, ds))
    (hN : fromStrRadixU 65535 ds radix = some N) :
    tryFromStr ("addi ".toList ++ r ++ ", -".toList ++ lit)
      = .ok (.AddImm k ((65536 - N) % 65536))
    ∧ tryFromStr ("compi ".toList ++ r ++ ", -".toList ++ lit)
      = .ok (.CompImm k ((65536 - N) % 65536)) := by
  obtain ⟨hcr, -⟩ := registerFromStr_clean hr
  have hNle : N ≤ 65535 := fromStrRadixU_le hN
  have hvclean : ('-' :: lit).all cleanChar = true := by
    rw [List.all_cons, hlit]
    decide
  have hsplit := splitTwo_of_clean hcr hvclean
  have hps : parseSign ('-' :: lit) = some (.negative, lit) := by
    simp [parseSign]
  have hprv : parseRegisterAndValue 65536 (r ++ ',' :: ' ' :: '-' :: lit)
      = .ok (k, (65536 - N) % 65536) := by
    unfold parseRegisterAndValue
    rw [hsplit]
    simp [hr, hps, hrad, hN, toSignW_negative hNle]
  constructor
  · have hshape : "addi ".toList ++ r ++ ", -".toList ++ lit
        = "addi".toList ++ ' ' :: (r ++ ',' :: ' ' :: '-' :: lit) := by
      simp
    have he : extractCommand
          ('a' :: 'd' :: 'd' :: 'i' :: ' ' :: (r ++ ',' :: ' ' :: '-' :: lit))
        = some ("addi".toList, r ++ ',' :: ' ' :: '-' :: lit) :=
      @extractCommand_append "addi".toList (by decide)
        (r ++ ',' :: ' ' :: '-' :: lit)
    rw [hshape]
    simp [tryFromStr, he, hprv, POutcome.map]
  · have hshape : "compi ".toList ++ r ++ ", -".toList ++ lit
        = "compi".toList ++ ' ' :: (r ++ ',' :: ' ' :: '-' :: lit) := by
      simp
    have he : extractCommand
          ('c' :: 'o' :: 'm' :: 'p' :: 'i' :: ' ' :: (r ++ ',' :: ' ' :: '-' :: lit))
        = some ("compi".toList, r ++ ',' :: ' ' :: '-' :: lit) :=
      @extractCommand_append "compi".toList (by decide)
        (r ++ ',' :: ' ' :: '-' :: lit)
    rw [hshape]
    simp [tryFromStr, he, hprv, POutcome.map]

/-- C5 witness: the spec's concrete scenario addi $t2, -0x10 parses with
immediate field 0xFFF0 = 65520. -/
theorem claim5_witness :
    registerFromStr "$t2".toList = some 10
    ∧ parseRadix "0x10".toList = (16, "10".toList)
    ∧ fromStrRadixU 65535 "10".toList 16 = some 16
    ∧ tryFromStr "addi $t2, -0x10".toList = .ok (.AddImm 10 65520) := by
  have h := claim5_signed_immediate "$t2".toList "0x10".toList "10".toList
    10 16 16 (by decide) (by decide) (by decide) (by decide)
  exact ⟨by decide, by decide, by decide, h.1⟩

/-! Claim C7: floating labels. -/

/-- C7 (confirmed): encoding any label-carrying instruction whose label
address is still unassigned yields the FloatingLabel error naming that
label (an error value, not a panic), and once an address is assigned with
the matching setter, encoding succeeds. -/
theorem claim7_floating_label (i : Instruction) :
    ((i.hasAbsLabel = true ∨ i.hasRelLabel = true) → i.labelUnresolved = true →
      i.encode = .error (.FloatingLabel i.getLabelName))
    ∧ (∀ a : Nat, i.hasAbsLabel = true → ∃ w, (i.setAbsAddr a).encode = .ok w)
    ∧ (∀ a : Nat, i.hasRelLabel = true → ∃ w, (i.setRelAddr a).encode = .ok w) := by
  refine ⟨fun hl hu => ?_, fun a ha => ?_, fun a hr => ?_⟩
  · cases i <;>
      simp_all [Instruction.hasAbsLabel, Instruction.hasRelLabel,
        Instruction.labelUnresolved, Instruction.encode,
        Instruction.getLabelName, Option.isNone_iff_eq_none]
  · cases i <;> first
      | exact ⟨_, rfl⟩
      | simp [Instruction.hasAbsLabel] at ha
  · cases i <;> first
      | exact ⟨_, rfl⟩
      | simp [Instruction.hasRelLabel] at hr

/-- C7 witness: the absolute branch b L with no address errors with
FloatingLabel "L" and encodes after address assignment, and likewise for
the relative branch bz. -/
theorem claim7_witness :
    (Instruction.B ⟨"L".toList, none⟩).encode
      = .error (.FloatingLabel "L".toList)
    ∧ (∃ w, ((Instruction.B ⟨"L".toList, none⟩).setAbsAddr 8).encode = .ok w)
    ∧ (Instruction.Bz 3 ⟨"M".toList, none⟩).encode
      = .error (.FloatingLabel "M".toList)
    ∧ (∃ w, ((Instruction.Bz 3 ⟨"M".toList, none⟩).setRelAddr 12).encode = .ok w) := by
  refine ⟨?_, ?_, ?_, ?_⟩
  · exact (claim7_floating_label _).1 (Or.inl (by decide)) (by decide)
  · exact (claim7_floating_label _).2.1 8 (by decide)
  · exact (claim7_floating_label _).1 (Or.inr (by decide)) (by decide)
  · exact (claim7_floating_label _).2.2 12 (by decide)

/-! Claim C9: structurally distinct operand-parse errors. -/

/-- C9 (confirmed): a two-register operand list that does not split into
exactly two comma-separated pieces yields InvalidNoOfArgs carrying the
expected and found counts; an unresolvable register name in either piece
yields UnknownRegister; a memory-access text the pattern does not match
yields InvalidInstruction; and the three error constructors are pairwise
distinct. -/
theorem claim9_error_distinctness :
    (∀ (rest : Str) (n : Nat), (splitOn ',' rest).length = n → n ≠ 2 →
      parseTwoRegisters rest = .error (.InvalidNoOfArgs 2 n))
    ∧ (∀ (rest a b : Str), (splitOn ',' rest).map trim = [a, b] →
      registerFromStr a = none →
      parseTwoRegisters rest = .error (.UnknownRegister a))
    ∧ (∀ (rest a b : Str) (k : Nat), (splitOn ',' rest).map trim = [a, b] →
      registerFromStr a = some k → registerFromStr b = none →
      parseTwoRegisters rest = .error (.UnknownRegister b))
    ∧ (∀ rest : Str, memCaptures rest = none →
      parseMemAccess rest = .err (.InvalidInstruction rest))
    ∧ (∀ (e f : Nat) (s : Str),
      AssemblerError.InvalidNoOfArgs e f ≠ .UnknownRegister s)
    ∧ (∀ (e f : Nat) (s : Str),
      AssemblerError.InvalidNoOfArgs e f ≠ .InvalidInstruction s)
    ∧ (∀ s t : Str, AssemblerError.UnknownRegister s ≠ .InvalidInstruction t) := by
  refine ⟨?_, ?_, ?_, ?_, ?_, ?_, ?_⟩
  · intro rest n hn h2
    subst hn
    unfold parseTwoRegisters
    split
    · rename_i a b heq
      have := congrArg List.length heq
      simp at this
      omega
    · rename_i heq
      simp
  · intro rest a b hsplit hra
    unfold parseTwoRegisters
    rw [hsplit]
    simp [hra]
  · intro rest a b k hsplit hra hrb
    unfold parseTwoRegisters
    rw [hsplit]
    simp [hra, hrb]
  · intro rest hmc
    unfold parseMemAccess
    rw [hmc]
  · intro e f s h
    exact AssemblerError.noConfusion h
  · intro e f s h
    exact AssemblerError.noConfusion h
  · intro s t h
    exact AssemblerError.noConfusion h

/-- C9 witness: one operand instead of two gives InvalidNoOfArgs 2 1; the
bad register $qq gives UnknownRegister in either position; a text with no
parenthesised base register fails the memory-access pattern with
InvalidInstruction; and the constructors are distinct at those values. -/
theorem claim9_witness :
    parseTwoRegisters "$t0".toList = .error (.InvalidNoOfArgs 2 1)
    ∧ parseTwoRegisters "$qq, $t0".toList
      = .error (.UnknownRegister "$qq".toList)
    ∧ parseTwoRegisters "$t0, $qq".toList
      = .error (.UnknownRegister "$qq".toList)
    ∧ parseMemAccess "657".toList = .err (.InvalidInstruction "657".toList)
    ∧ AssemblerError.InvalidNoOfArgs 2 1 ≠ .UnknownRegister "$qq".toList
    ∧ AssemblerError.InvalidNoOfArgs 2 1 ≠ .InvalidInstruction "657".toList
    ∧ AssemblerError.UnknownRegister "$qq".toList
      ≠ .InvalidInstruction "657".toList := by
  refine ⟨?_, ?_, ?_, ?_, ?_, ?_, ?_⟩
  · exact claim9_error_distinctness.1 "$t0".toList 1 (by decide) (by decide)
  · exact claim9_error_distinctness.2.1 "$qq, $t0".toList "$qq".toList
      "$t0".toList (by decide) (by decide)
  · exact claim9_error_distinctness.2.2.1 "$t0, $qq".toList "$t0".toList
      "$qq".toList 8 (by decide) (by decide) (by decide)
  · exact claim9_error_distinctness.2.2.2.1 "657".toList (by decide)
  · exact claim9_error_distinctness.2.2.2.2.1 2 1 "$qq".toList
  · exact claim9_error_distinctness.2.2.2.2.2.1 2 1 "657".toList
  · exact claim9_error_distinctness.2.2.2.2.2.2 "$qq".toList "657".toList

/-! Claim C6: the opcode occupies the top six bits. -/

/-- In-range operand fields: register and shift fields below 32 (the
5-bit register space) and an assigned absolute address below 2^26 (the
26-bit address field).  Relative displacements are u16 and always fit. -/
def fieldsOk : Instruction → Bool
  | .Add rs rt | .Comp rs rt | .And rs rt | .Xor rs rt
  | .Sllv rs rt | .Srlv rs rt | .Srav rs rt =>
      decide (rs < 32) && decide (rt < 32)
  | .AddImm rs _ | .CompImm rs _ => decide (rs < 32)
  | .Sll rs sh | .Srl rs sh | .Sra rs sh =>
      decide (rs < 32) && decide (sh < 32)
  | .Lw rt _ rs | .Sw rt _ rs => decide (rs < 32) && decide (rt < 32)
  | .B label | .Bl label =>
      match label.addr with
      | none => true
      | some a => decide (a < 67108864)
  | .Br rs => decide (rs < 32)
  | .Bcy _ | .Bncy _ => true
  | .Bltz rs _ | .Bz rs _ | .Bnz rs _ => decide (rs < 32)

/-- Oring a value below 2^26 into a word whose low 26 bits are clear
leaves the quotient by 2^26 equal to the high part. -/
theorem lor_top {op low : Nat} (hlow : low < 67108864) :
    (op * 67108864 ||| low) / 67108864 = op := by
  have hlow2 : low < 2 ^ 26 := by simpa using hlow
  have key : 2 ^ 26 * op + low = 2 ^ 26 * op ||| low :=
    Nat.mul_add_lt_is_or hlow2 op
  have comm : op * 67108864 = 2 ^ 26 * op := by
    rw [Nat.mul_comm]
    norm_num
  rw [comm, ← key]
  have e : (2 : Nat) ^ 26 = 67108864 := by norm_num
  rw [e]
  omega

/-- The top six bits of any I-type word with an in-range rs field are the
opcode. -/
theorem encodeItype_top {op rs : Nat} (rt imm : Nat) (hop : op < 64)
    (hrs : rs < 32) : encodeItype op rs rt imm / 67108864 = op := by
  unfold encodeItype
  have h0 : op % 256 = op := by omega
  have h1 : rs % 256 = rs := by omega
  have h2 : op * 67108864 % 4294967296 = op * 67108864 :=
    Nat.mod_eq_of_lt (by omega)
  rw [h0, h1, h2]
  have e : (2 : Nat) ^ 26 = 67108864 := by norm_num
  have hrt : rt % 256 < 256 := Nat.mod_lt rt (by decide)
  have himm : imm % 65536 < 65536 := Nat.mod_lt imm (by decide)
  have hb : rs * 2097152 < 2 ^ 26 := by rw [e]; omega
  have hc : rt % 256 * 65536 < 2 ^ 26 := by rw [e]; omega
  have hd : imm % 65536 < 2 ^ 26 := by rw [e]; omega
  have hlow : (rs * 2097152 ||| (rt % 256 * 65536 ||| imm % 65536)) < 2 ^ 26 :=
    Nat.or_lt_two_pow hb (Nat.or_lt_two_pow hc hd)
  rw [Nat.lor_assoc, Nat.lor_assoc]
  exact lor_top (by rw [← e]; exact hlow)

/-- The top six bits of any J-type word with an in-range address are the
opcode. -/
theorem encodeJtype_top {op addr : Nat} (hop : op < 64)
    (haddr : addr % 4294967296 < 67108864) :
    encodeJtype op addr / 67108864 = op := by
  unfold encodeJtype
  have h0 : op % 256 = op := by omega
  have h2 : op * 67108864 % 4294967296 = op * 67108864 :=
    Nat.mod_eq_of_lt (by omega)
  rw [h0, h2]
  exact lor_top haddr

/-- C6 (corrected): for every instruction whose register and shift fields
are below 32 and whose absolute address is below 2^26, the top six bits
of the successfully encoded word equal the variant's fixed opcode.  With
out-of-range fields the OR-composition lets field bits reach the opcode
positions (see the counterexample). -/
theorem claim6_opcode_top (i : Instruction) (w : Nat)
    (hok : fieldsOk i = true) (henc : i.encode = .ok w) :
    w / 67108864 = i.opcode := by
  cases i with
  | Add rs rt =>
      simp only [Instruction.encode, Instruction.opcode] at henc ⊢
      simp only [fieldsOk, Bool.and_eq_true, decide_eq_true_eq] at hok
      injection henc with h
      subst h
      exact encodeItype_top _ _ (by norm_num) (by omega)
  | Comp rs rt =>
      simp only [Instruction.encode, Instruction.opcode] at henc ⊢
      simp only [fieldsOk, Bool.and_eq_true, decide_eq_true_eq] at hok
      injection henc with h
      subst h
      exact encodeItype_top _ _ (by norm_num) (by omega)
  | And rs rt =>
      simp only [Instruction.encode, Instruction.opcode] at henc ⊢
      simp only [fieldsOk, Bool.and_eq_true, decide_eq_true_eq] at hok
      injection henc with h
      subst h
      exact encodeItype_top _ _ (by norm_num) (by omega)
  | Xor rs rt =>
      simp only [Instruction.encode, Instruction.opcode] at henc ⊢
      simp only [fieldsOk, Bool.and_eq_true, decide_eq_true_eq] at hok
      injection henc with h
      subst h
      exact encodeItype_top _ _ (by norm_num) (by omega)
  | Sllv rs rt =>
      simp only [Instruction.encode, Instruction.opcode] at henc ⊢
      simp only [fieldsOk, Bool.and_eq_true, decide_eq_true_eq] at hok
      injection henc with h
      subst h
      exact encodeItype_top _ _ (by norm_num) (by omega)
  | Srlv rs rt =>
      simp only [Instruction.encode, Instruction.opcode] at henc ⊢
      simp only [fieldsOk, Bool.and_eq_true, decide_eq_true_eq] at hok
      injection henc with h
      subst h
      exact encodeItype_top _ _ (by norm_num) (by omega)
  | Srav rs rt =>
      simp only [Instruction.encode, Instruction.opcode] at henc ⊢
      simp only [fieldsOk, Bool.and_eq_true, decide_eq_true_eq] at hok
      injection henc with h
      subst h
      exact encodeItype_top _ _ (by norm_num) (by omega)
  | AddImm rs imm =>
      simp only [Instruction.encode, Instruction.opcode] at henc ⊢
      simp only [fieldsOk, decide_eq_true_eq] at hok
      injection henc with h
      subst h
      exact encodeItype_top _ _ (by norm_num) (by omega)
  | CompImm rs imm =>
      simp only [Instruction.encode, Instruction.opcode] at henc ⊢
      simp only [fieldsOk, decide_eq_true_eq] at hok
      injection henc with h
      subst h
      exact encodeItype_top _ _ (by norm_num) (by omega)
  | Sll rs sh =>
      simp only [Instruction.encode, Instruction.opcode] at henc ⊢
      simp only [fieldsOk, Bool.and_eq_true, decide_eq_true_eq] at hok
      injection henc with h
      subst h
      exact encodeItype_top _ _ (by norm_num) (by omega)
  | Srl rs sh =>
      simp only [Instruction.encode, Instruction.opcode] at henc ⊢
      simp only [fieldsOk, Bool.and_eq_true, decide_eq_true_eq] at hok
      injection henc with h
      subst h
      exact encodeItype_top _ _ (by norm_num) (by omega)
  | Sra rs sh =>
      simp only [Instruction.encode, Instruction.opcode] at henc ⊢
      simp only [fieldsOk, Bool.and_eq_true, decide_eq_true_eq] at hok
      injection henc with h
      subst h
      exact encodeItype_top _ _ (by norm_num) (by omega)
  | Lw rt imm rs =>
      simp only [Instruction.encode, Instruction.opcode] at henc ⊢
      simp only [fieldsOk, Bool.and_eq_true, decide_eq_true_eq] at hok
      injection henc with h
      subst h
      exact encodeItype_top _ _ (by norm_num) (by omega)
  | Sw rt imm rs =>
      simp only [Instruction.encode, Instruction.opcode] at henc ⊢
      simp only [fieldsOk, Bool.and_eq_true, decide_eq_true_eq] at hok
      injection henc with h
      subst h
      exact encodeItype_top _ _ (by norm_num) (by omega)
  | B label =>
      obtain ⟨nm, ad⟩ := label
      cases ad with
      | none => simp [Instruction.encode] at henc
      | some a =>
          simp only [Instruction.encode, Instruction.opcode] at henc ⊢
          simp only [fieldsOk, decide_eq_true_eq] at hok
          injection henc with h
          subst h
          exact encodeJtype_top (by norm_num) (by omega)
  | Bl label =>
      obtain ⟨nm, ad⟩ := label
      cases ad with
      | none => simp [Instruction.encode] at henc
      | some a =>
          simp only [Instruction.encode, Instruction.opcode] at henc ⊢
          simp only [fieldsOk, decide_eq_true_eq] at hok
          injection henc with h
          subst h
          exact encodeJtype_top (by norm_num) (by omega)
  | Br rs =>
      simp only [Instruction.encode, Instruction.opcode] at henc ⊢
      simp only [fieldsOk, decide_eq_true_eq] at hok
      injection henc with h
      subst h
      exact encodeItype_top _ _ (by norm_num) (by omega)
  | Bcy label =>
      obtain ⟨nm, ad⟩ := label
      cases ad with
      | none => simp [Instruction.encode] at henc
      | some a =>
          simp only [Instruction.encode, Instruction.opcode] at henc ⊢
          injection henc with h
          subst h
          exact encodeItype_top _ _ (by norm_num) (by omega)
  | Bncy label =>
      obtain ⟨nm, ad⟩ := label
      cases ad with
      | none => simp [Instruction.encode] at henc
      | some a =>
          simp only [Instruction.encode, Instruction.opcode] at henc ⊢
          injection henc with h
          subst h
          exact encodeItype_top _ _ (by norm_num) (by omega)
  | Bltz rs label =>
      obtain ⟨nm, ad⟩ := label
      cases ad with
      | none => simp [Instruction.encode] at henc
      | some a =>
          simp only [Instruction.encode, Instruction.opcode] at henc ⊢
          simp only [fieldsOk, decide_eq_true_eq] at hok
          injection henc with h
          subst h
          exact encodeItype_top _ _ (by norm_num) (by omega)
  | Bz rs label =>
      obtain ⟨nm, ad⟩ := label
      cases ad with
      | none => simp [Instruction.encode] at henc
      | some a =>
          simp only [Instruction.encode, Instruction.opcode] at henc ⊢
          simp only [fieldsOk, decide_eq_true_eq] at hok
          injection henc with h
          subst h
          exact encodeItype_top _ _ (by norm_num) (by omega)
  | Bnz rs label =>
      obtain ⟨nm, ad⟩ := label
      cases ad with
      | none => simp [Instruction.encode] at henc
      | some a =>
          simp only [Instruction.encode, Instruction.opcode] at henc ⊢
          simp only [fieldsOk, decide_eq_true_eq] at hok
          injection henc with h
          subst h
          exact encodeItype_top _ _ (by norm_num) (by omega)

/-- C6 counterexample: with the out-of-range (but valid u8) register
field rs = 255, the Add word is 255 shifted into bits 21..28, whose top
six bits read back 7 while the Add opcode is 0: the claim fails for
arbitrary operand field values. -/
theorem claim6_counterexample :
    Instruction.encode (.Add 255 0) = .ok 534773760
    ∧ 534773760 / 67108864 = 7
    ∧ (Instruction.Add 255 0).opcode = 0
    ∧ (7 : Nat) ≠ 0 :=
  ⟨by decide, by decide, by decide, by decide⟩

/-- C6 witness: the in-range And instruction of the spec scenario has its
opcode 4 in the top six bits of its word. -/
theorem claim6_witness :
    fieldsOk (.And 10 23) = true
    ∧ Instruction.encode (.And 10 23) = .ok 0x11570000
    ∧ 0x11570000 / 67108864 = (Instruction.And 10 23).opcode := by
  refine ⟨by decide, by decide, ?_⟩
  exact claim6_opcode_top (.And 10 23) 0x11570000 (by decide) (by decide)

/-! Claim C8: line classification. -/

/-- Whether a line contains, anywhere, an identifier character followed
immediately by a colon -- the criterion under which the unanchored label
regular expression matches. -/
def containsIdColon : Str → Bool
  | a :: b :: rest => (isIdChar a && b == ':') || containsIdColon (b :: rest)
  | _ => false

/-- The claim's classification criterion read literally: the line IS an
identifier immediately followed by a colon, i.e. a nonempty identifier
run with the colon as the final character and nothing else.  Written from
the claim's words for comparison with detectLabel. -/
def specLabelLine (l : Str) : Bool :=
  l.getLast? == some ':' && !l.dropLast.isEmpty && l.dropLast.all isIdChar

/-- An identifier character is never a colon. -/
theorem isIdChar_ne_colon {c : Char} (h : isIdChar c = true) :
    (c == ':') = false := by
  cases hbe : c == ':'
  · rfl
  · have hc : c = ':' := by simpa using hbe
    rw [hc] at h
    exact absurd h (by decide)

/-- The label scan succeeds exactly when the text ahead contains an
identifier character immediately followed by a colon, or the run carried
in from the left is nonempty and a colon comes first. -/
theorem detectLabelGo_isSome : ∀ (l run : Str),
    (detectLabelGo run l).isSome
      = ((!run.isEmpty && l.head? == some ':') || containsIdColon l)
  | [], run => by simp [detectLabelGo, containsIdColon]
  | c :: rest, run => by
      rw [detectLabelGo]
      by_cases hid : isIdChar c = true
      · rw [if_pos hid, detectLabelGo_isSome rest (c :: run)]
        have hc := isIdChar_ne_colon hid
        cases rest with
        | nil => simp [containsIdColon, hc]
        | cons b rest' => simp [containsIdColon, hid, hc]
      · rw [if_neg hid]
        have hid' : isIdChar c = false := by
          cases h : isIdChar c
          · rfl
          · exact absurd h hid
        by_cases hcol : c = ':'
        · cases hrun : run with
          | nil =>
              rw [if_neg (by simp [hcol, hrun])]
              rw [detectLabelGo_isSome rest []]
              cases rest with
              | nil => simp [containsIdColon]
              | cons b rest' => simp [containsIdColon, hid']
          | cons r rs =>
              rw [if_pos (by simp [hcol, hrun])]
              simp [hcol, containsIdColon]
        · rw [if_neg (by simp [hcol])]
          rw [detectLabelGo_isSome rest []]
          have hc : (c == ':') = false := by simpa using hcol
          cases rest with
          | nil => simp [containsIdColon, hc]
          | cons b rest' => simp [containsIdColon, hid', hc]

/-- A successful instruction-line parse always contributes at least one
instruction (pseudo lines contribute two, plain lines one). -/
theorem fromStr_ok_ne_nil {l : Str} {xs : List Instruction}
    (h : fromStr l = .ok xs) : xs ≠ [] := by
  unfold fromStr at h
  split at h
  · exact absurd h (by simp)
  · split_ifs at h
    · split at h
      · exact absurd h (by simp)
      · intro hnil; rw [hnil] at h; simp at h
    · split at h
      · exact absurd h (by simp)
      · intro hnil; rw [hnil] at h; simp at h
    · split at h
      · exact absurd h (by simp)
      · intro hnil; rw [hnil] at h; simp at h
    · unfold POutcome.map at h
      split at h
      · exact absurd h (by simp)
      · exact absurd h (by simp)
      · intro hnil; rw [hnil] at h; simp at h

/-- C8 (corrected): a non-comment source line is treated as a label
definition exactly when it CONTAINS an identifier character immediately
followed by a colon (the unanchored regular expression, not whole-line
equality as the claim reads); label lines append no instruction and
record the current instruction count as the label's defining position,
while instruction lines leave the label table unchanged and append one or
more instructions. -/
theorem claim8_line_classification :
    (∀ l : Str, (detectLabel l).isSome = containsIdColon l)
    ∧ (∀ (st : ParsedAsm) (line nm : Str),
        ¬ (trim line).take 2 = "//".toList →
        detectLabel (stripComment (trim line)) = some nm →
        processLine st line
          = .ok ⟨st.instrs, (nm, st.instrs.length) :: st.labels⟩)
    ∧ (∀ (st st' : ParsedAsm) (line : Str),
        ¬ (trim line).take 2 = "//".toList →
        detectLabel (stripComment (trim line)) = none →
        processLine st line = .ok st' →
        st'.labels = st.labels
          ∧ ∃ new, new ≠ [] ∧ st'.instrs = st.instrs ++ new) := by
  refine ⟨?_, ?_, ?_⟩
  · intro l
    rw [detectLabel, detectLabelGo_isSome]
    simp
  · intro st line nm hcom hlab
    unfold processLine
    rw [if_neg hcom]
    dsimp only
    rw [hlab]
    rfl
  · intro st st' line hcom hlab hrun
    unfold processLine at hrun
    rw [if_neg hcom] at hrun
    dsimp only at hrun
    rw [hlab] at hrun
    cases hfs : fromStr (stripComment (trim line)) with
    | panicked => rw [hfs] at hrun; exact absurd hrun (by simp)
    | err e => rw [hfs] at hrun; exact absurd hrun (by simp)
    | ok new =>
        rw [hfs] at hrun
        have hst : st' = ⟨st.instrs ++ new, st.labels⟩ := by
          simpa using hrun.symm
        subst hst
        exact ⟨rfl, new, fromStr_ok_ne_nil hfs, rfl⟩

/-- C8 counterexample: the line "x: y" is not an identifier immediately
followed by a colon (it has a trailing operand-like tail), yet the parser
treats it as a definition of the label x at the current count. -/
theorem claim8_counterexample :
    processLine ⟨[], []⟩ "x: y".toList = .ok ⟨[], [("x".toList, 0)]⟩
    ∧ specLabelLine "x: y".toList = false :=
  ⟨by decide, by decide⟩

/-- C8 witness: the classification criterion evaluated on a line with
text around the label; a pure label line recording position 0; and an
instruction line appending its two pseudo-expanded instructions. -/
theorem claim8_witness :
    (detectLabel "ab: cd".toList).isSome = containsIdColon "ab: cd".toList
    ∧ processLine ⟨[], []⟩ "L1:".toList = .ok ⟨[], [("L1".toList, 0)]⟩
    ∧ ((⟨[.Sw 8 0 29, .AddImm 29 65532], []⟩ : ParsedAsm).labels
        = (⟨[], []⟩ : ParsedAsm).labels
      ∧ ∃ new, new ≠ [] ∧
        (⟨[.Sw 8 0 29, .AddImm 29 65532], []⟩ : ParsedAsm).instrs
          = (⟨[], []⟩ : ParsedAsm).instrs ++ new) := by
  refine ⟨claim8_line_classification.1 "ab: cd".toList, ?_, ?_⟩
  · exact claim8_line_classification.2.1 ⟨[], []⟩ "L1:".toList "L1".toList
      (by decide) (by decide)
  · exact claim8_line_classification.2.2 ⟨[], []⟩
      ⟨[.Sw 8 0 29, .AddImm 29 65532], []⟩ "push $t0".toList
      (by decide) (by decide) (by decide)

end Gatherer
